import Mathlib

/-!
Verification of the WikiGraph ingestion core: shallow embedding of the
link-resolution, identity-resolution, batch-writing and bulk-loading code
(src/core/bulk_exporter.py, src/core/engine/graph_engine.py,
src/core/tools/prepare_neo4j_csv.py, src/core/parser.py,
src/scripts/phase1_enhanced.py, src/core/neo4j_loader.py),
together with theorems settling the specified properties.
-/

namespace WikiGraph

/-- Python `dict` lookup over an insertion-ordered association list
(head = first insertion): the value of the LAST binding of the key,
mirroring `d[k] = v` overwriting earlier bindings. -/
def dictGet [BEq α] : List (α × β) → α → Option β
  | [], _ => none
  | p :: m, k =>
    match dictGet m k with
    | some v => some v
    | none => if p.1 == k then some p.2 else none

/-- An article record as read from `articles_batch_*.jsonl.gz`
(`data['id']`, `data['title']`). -/
structure Article where
  id : Nat
  title : String
deriving DecidableEq, Repr

/-- `get_qid_global` (graph_engine.py:35-37) and the inline
`qid_map_global.get(page_id, f"local:{lang}:{page_id}")`
(bulk_exporter.py:48,97): QID of a page, with the synthetic
`local:<lang>:<pageId>` fallback for pages absent from the map. -/
def get_qid (qidMap : List (Nat × String)) (lang : String) (pageId : Nat) : String :=
  (dictGet qidMap pageId).getD ("local:" ++ lang ++ ":" ++ toString pageId)

/-- `build_title_map` (bulk_exporter.py:33-55) /
`build_title_qid_map` (graph_engine.py:122-137): for every article record,
in file order, execute `title_qid_map_global[data['title']] = qid`.
The association list is in insertion order; `dictGet` gives dict semantics. -/
def build_title_map (qidMap : List (Nat × String)) (lang : String)
    (articles : List Article) : List (String × String) :=
  articles.map (fun a => (a.title, get_qid qidMap lang a.id))

/-- A raw link row from `links_batch_*.csv.gz`: (source title, target title).
The third CSV column (language) is fixed per run. -/
structure RawLink where
  src : String
  tgt : String
deriving DecidableEq, Repr

/-- Python truthiness of a string: non-empty. -/
def truthy (s : String) : Bool := s != ""

/-- Link resolution of one raw link (bulk_exporter.py:123-135,
graph_engine.py:166-172): look up both titles in the title → QID map;
emit the pair iff both lookups return truthy values
(`if s_qid and t_qid:`). No further condition is applied. -/
def resolveLink (titleMap : List (String × String)) (l : RawLink) :
    Option (String × String) :=
  match dictGet titleMap l.src, dictGet titleMap l.tgt with
  | some s, some t => if truthy s && truthy t then some (s, t) else none
  | _, _ => none

/-- All edges emitted for a list of raw links, in order. -/
def resolveLinks (titleMap : List (String × String)) (links : List RawLink) :
    List (String × String) :=
  links.filterMap (resolveLink titleMap)

/-- Counters of the link-export pass (bulk_exporter.py:116-135):
`link_count` is incremented for every row read, `resolved_count` only for
rows that produce an edge; the unresolved count is their difference. -/
structure LinkStats where
  link_count : Nat
  resolved_count : Nat
deriving DecidableEq, Repr

/-- One iteration of the link-export loop (bulk_exporter.py:123-135):
bump `link_count`, resolve, and on success append the edge and bump
`resolved_count`. -/
def processLinksStep (titleMap : List (String × String))
    (acc : LinkStats × List (String × String)) (l : RawLink) :
    LinkStats × List (String × String) :=
  let st : LinkStats := { acc.1 with link_count := acc.1.link_count + 1 }
  match resolveLink titleMap l with
  | some e => ({ st with resolved_count := st.resolved_count + 1 }, acc.2 ++ [e])
  | none => (st, acc.2)

/-- Pass 2 of `process_files` over all link rows. -/
def process_files (titleMap : List (String × String)) (links : List RawLink) :
    LinkStats × List (String × String) :=
  links.foldl (processLinksStep titleMap) (⟨0, 0⟩, [])

/-- `load_qid_map` (bulk_exporter.py:22-31): `open(csv_path)` on the QID CSV.
A missing or unreadable file raises `FileNotFoundError`; the function body
contains no handler for it, so the exception propagates. The file argument is
`none` when the property dump is missing, `some rows` when readable. -/
def load_qid_map (file : Option (List (Nat × String))) :
    Except String (List (Nat × String)) :=
  match file with
  | none => Except.error "FileNotFoundError"
  | some rows => Except.ok rows

/-- `bulk_exporter.main` (bulk_exporter.py:145-168): load the QID map (an
exception there aborts the run), then build the title map and export links. -/
def bulk_export (qidFile : Option (List (Nat × String))) (lang : String)
    (articles : List Article) (links : List RawLink) :
    Except String (LinkStats × List (String × String)) :=
  match load_qid_map qidFile with
  | Except.error e => Except.error e
  | Except.ok q => Except.ok (process_files (build_title_map q lang articles) links)

/-- `title.replace(" ", "_")` (prepare_neo4j_csv.py:44,61): replace every
space character by an underscore (the pattern and replacement are single
characters, so string replacement is character-wise). -/
def underscore (s : String) : String :=
  ⟨s.data.map (fun c => if c = ' ' then '_' else c)⟩

/-- A raw link together with the id of its source page: the pagelinks dump
consumed by the join strategy identifies the source by `pl_from` (page id),
while the parser CSV consumed by the in-memory strategy identifies it by
title; a common input carries both, plus the target title. -/
structure PageLink where
  srcId : Nat
  srcTitle : String
  tgt : String
deriving DecidableEq, Repr

/-- `load_mappings` id side (prepare_neo4j_csv.py:35-47): the SQL inner join
`pages ⋈ id_mapping` (namespace 0) keeps only pages that have an external
QID; no synthetic fallback is applied. `id_map[pid] = qid` in row order. -/
def load_id_map (q : List (Nat × String)) (articles : List Article) :
    List (Nat × String) :=
  articles.filterMap (fun a => (dictGet q a.id).map (fun v => (a.id, v)))

/-- `load_mappings` title side (prepare_neo4j_csv.py:42-45): for the same
joined rows, `title_map[title.replace(" ", "_")] = qid`. -/
def load_title_map_join (q : List (Nat × String)) (articles : List Article) :
    List (String × String) :=
  articles.filterMap (fun a => (dictGet q a.id).map (fun v => (underscore a.title, v)))

/-- One pagelinks row in `generate_csvs` (prepare_neo4j_csv.py:114-149):
resolve the source page id in `id_map` (`if not src_qid: continue`), then the
target title (underscored, via the link-target table) in `title_map`
(`if tgt_qid: write`). Python falsiness drops `None` and empty strings. -/
def resolveJoin (idMap : List (Nat × String)) (tmJoin : List (String × String))
    (l : PageLink) : Option (String × String) :=
  match dictGet idMap l.srcId with
  | none => none
  | some s =>
    if truthy s then
      match dictGet tmJoin (underscore l.tgt) with
      | none => none
      | some t => if truthy t then some (s, t) else none
    else none

/-- Edge set emitted by the join-based strategy (prepare_neo4j_csv.py). -/
def join_edges (q : List (Nat × String)) (articles : List Article)
    (links : List PageLink) : List (String × String) :=
  links.filterMap (resolveJoin (load_id_map q articles) (load_title_map_join q articles))

/-- Edge set emitted by the in-memory strategy (bulk_exporter.py /
graph_engine.py) on the same input: resolve source title and target title in
the in-RAM title → QID map. -/
def in_memory_edges (q : List (Nat × String)) (lang : String)
    (articles : List Article) (links : List PageLink) : List (String × String) :=
  links.filterMap (fun l => resolveLink (build_title_map q lang articles) ⟨l.srcTitle, l.tgt⟩)

/-- An article row of the engine's articles mode
(graph_engine.py:150-154): `{'qid': ..., 'art_id': lang:page_id, 'title': ...}`. -/
structure ArticleRow where
  qid : String
  art_id : String
  title : String
deriving DecidableEq, Repr

/-- The target store state: Concept nodes (unique by qid), Article nodes
(unique by id), REPRESENTS edges (article id, concept qid) and LINKS_TO
edges (source qid, target qid). Lists record insertion order; MERGE-style
operations only insert missing elements. -/
structure Store where
  concepts : List String
  articles : List (String × String × String)
  reps : List (String × String)
  links : List (String × String)
deriving DecidableEq, Repr

/-- `MERGE (c:Concept {qid: qid})` for one row of `process_concept_batch`
(graph_engine.py:39-50). -/
def mergeConcept (s : Store) (qid : String) : Store :=
  if qid ∈ s.concepts then s else { s with concepts := s.concepts ++ [qid] }

/-- `process_concept_batch` (graph_engine.py:39-50): UNWIND the batch and
MERGE each concept. -/
def process_concept_batch (batch : List String) (s : Store) : Store :=
  batch.foldl mergeConcept s

/-- `MERGE (a:Article {id: row.art_id}) ON CREATE SET a.title, a.lang`
(graph_engine.py:56-57): create the article node only if no node with this
id exists; on a match the title and lang are not touched. -/
def mergeArticleNode (lang : String) (s : Store) (r : ArticleRow) : Store :=
  if s.articles.any (fun a => a.1 == r.art_id) then s
  else { s with articles := s.articles ++ [(r.art_id, r.title, lang)] }

/-- `MERGE (a)-[:REPRESENTS]->(c)` (graph_engine.py:58): insert the
REPRESENTS edge if absent. -/
def mergeRep (r : ArticleRow) (s : Store) : Store :=
  if (r.art_id, r.qid) ∈ s.reps then s
  else { s with reps := s.reps ++ [(r.art_id, r.qid)] }

/-- One row of `process_article_batch` (graph_engine.py:52-69):
`MATCH (c:Concept {qid}) MERGE (a:Article {id}) ON CREATE SET title, lang
MERGE (a)-[:REPRESENTS]->(c)`. A row whose concept is absent matches
nothing and writes nothing. -/
def mergeArticleRow (lang : String) (s : Store) (r : ArticleRow) : Store :=
  if r.qid ∈ s.concepts then mergeRep r (mergeArticleNode lang s r) else s

/-- `process_article_batch` (graph_engine.py:52-69). -/
def process_article_batch (batch : List ArticleRow) (lang : String) (s : Store) : Store :=
  batch.foldl (mergeArticleRow lang) s

/-- One row of `process_link_batch` (graph_engine.py:71-88):
`MATCH (sc:Concept {qid: row.sqid}) MATCH (tc:Concept {qid: row.tqid})
MERGE (sc)-[:LINKS_TO]->(tc)`. -/
def mergeLinkRow (s : Store) (r : String × String) : Store :=
  if r.1 ∈ s.concepts ∧ r.2 ∈ s.concepts then
    if r ∈ s.links then s else { s with links := s.links ++ [r] }
  else s

/-- `process_link_batch` (graph_engine.py:71-88). -/
def process_link_batch (batch : List (String × String)) (s : Store) : Store :=
  batch.foldl mergeLinkRow s

/-- The effect of one article row is already materialized in the store:
if its concept exists, the article node and the REPRESENTS edge exist. -/
def artDone (lang : String) (s : Store) (r : ArticleRow) : Prop :=
  r.qid ∈ s.concepts →
    (s.articles.any (fun a => a.1 == r.art_id) = true ∧ (r.art_id, r.qid) ∈ s.reps)

/-- The effect of one link row is already materialized in the store. -/
def linkDone (s : Store) (r : String × String) : Prop :=
  (r.1 ∈ s.concepts ∧ r.2 ∈ s.concepts) → r ∈ s.links

/-- The store as seen by `Neo4jLoader` (neo4j_loader.py): Article nodes
keyed by page id (language fixed per run) and LINKS_TO edges between them.
`links` is a multiset: the loader's Cypher uses CREATE, not MERGE. -/
structure LoaderStore where
  articles : List Nat
  links : List (Nat × Nat)
deriving DecidableEq, Repr

/-- One row of `load_links_parallel` (neo4j_loader.py:77-82):
`MATCH (s:Article {id: row.sid, ...}) MATCH (t:Article {id: row.tid, ...})
CREATE (s)-[:LINKS_TO]->(t)` — CREATE appends unconditionally when both
matches succeed. -/
def createLinkRow (s : LoaderStore) (r : Nat × Nat) : LoaderStore :=
  if r.1 ∈ s.articles ∧ r.2 ∈ s.articles then
    { s with links := s.links ++ [r] }
  else s

/-- One batch write of `load_links_parallel` (neo4j_loader.py:74-103). -/
def load_links_batch (batch : List (Nat × Nat)) (s : LoaderStore) : LoaderStore :=
  batch.foldl createLinkRow s

/-- `max_retries = 5` (graph_engine.py:25). -/
def max_retries : Nat := 5

/-- The sleep before retrying after failed attempt `a`
(graph_engine.py:33): `0.5 * (2 ** attempt) + random.uniform(0, 0.5)`;
the jitter drawn on each attempt is a parameter. -/
def backoffDelay (jitter : Nat → ℚ) (attempt : Nat) : ℚ :=
  1/2 * 2 ^ attempt + jitter attempt

/-- Outcome of `execute_with_retry`: a normal return after a successful
attempt, a re-raised error (`if attempt == max_retries - 1: raise`), or the
unreachable fall-through of the `for` loop. -/
inductive RetryOutcome where
  | ok (attempt : Nat)
  | raised
  | fellThrough
deriving DecidableEq, Repr

/-- The retry loop of `execute_with_retry` (graph_engine.py:24-33):
`succeeds a` tells whether the session run on attempt `a` succeeds or
raises a transient error; the accumulated sleep durations are returned
alongside the outcome. -/
def retryGo (succeeds : Nat → Bool) (jitter : Nat → ℚ) :
    Nat → Nat → List ℚ → RetryOutcome × List ℚ
  | _, 0, sleeps => (RetryOutcome.fellThrough, sleeps)
  | attempt, fuel + 1, sleeps =>
    if succeeds attempt then (RetryOutcome.ok attempt, sleeps)
    else if attempt = max_retries - 1 then (RetryOutcome.raised, sleeps)
    else retryGo succeeds jitter (attempt + 1) fuel (sleeps ++ [backoffDelay jitter attempt])

/-- `execute_with_retry` (graph_engine.py:24-33): `for attempt in range(5)`. -/
def execute_with_retry (succeeds : Nat → Bool) (jitter : Nat → ℚ) :
    RetryOutcome × List ℚ :=
  retryGo succeeds jitter 0 max_retries []

/-- The batch accumulation loop of `_create_batches`
(graph_engine.py:139-180): append items one at a time to `current_batch`,
flush when `len(current_batch) >= batch_size`, and flush the non-empty
remainder at the end. -/
def chunksAux (n : Nat) : List α → List α → List (List α) → List (List α)
  | [], cur, acc => if cur.isEmpty then acc else acc ++ [cur]
  | x :: xs, cur, acc =>
    let cur' := cur ++ [x]
    if n ≤ cur'.length then chunksAux n xs [] (acc ++ [cur'])
    else chunksAux n xs cur' acc

/-- Split a stream into batches of size `n` (last batch possibly smaller). -/
def chunks (n : Nat) (l : List α) : List (List α) :=
  chunksAux n l [] []

/-- `_create_batches` in concepts mode (graph_engine.py:144-159): per line,
append `get_qid_global(lang, id)`; each flushed batch passes through
`list(set(...))`, modelled as `dedup` (the iteration order of a Python set
is irrelevant to the claims below). -/
def create_batches_concepts (q : List (Nat × String)) (lang : String)
    (batchSize : Nat) (recs : List Article) : List (List String) :=
  (chunks batchSize (recs.map (fun a => get_qid q lang a.id))).map List.dedup

/-- `_create_batches` in articles mode (graph_engine.py:144-159). -/
def create_batches_articles (q : List (Nat × String)) (lang : String)
    (batchSize : Nat) (recs : List Article) : List (List ArticleRow) :=
  chunks batchSize
    (recs.map (fun a => ⟨get_qid q lang a.id, lang ++ ":" ++ toString a.id, a.title⟩))

/-- `_create_batches` in links mode (graph_engine.py:162-176): only rows
whose two titles resolve are appended, so batching applies to the resolved
stream. -/
def create_batches_links (titleMap : List (String × String)) (batchSize : Nat)
    (links : List RawLink) : List (List (String × String)) :=
  chunks batchSize (links.filterMap (resolveLink titleMap))

/-- A batch write issued against the store by `ingest_language`, tagged by
the kind of write. -/
inductive StoreBatch where
  | concepts (b : List String)
  | articles (b : List ArticleRow)
  | links (b : List (String × String))
deriving DecidableEq, Repr

/-- Phase of a batch write: 1 = Concepts, 2 = Articles, 3 = Links. -/
def phaseIndex : StoreBatch → Nat
  | .concepts _ => 1
  | .articles _ => 2
  | .links _ => 3

/-- `ingest_language` (graph_engine.py:182-216): the sequence of batch
writes it issues. Phase 1 maps every article file to concept batches, phase
2 to article batches, phase 3 maps every link file to link batches; each
phase's `list(executor.map(...))` completes before the next phase starts
(worker completion order inside one phase does not move a batch across
phases). The title map is built from all article files first. -/
def ingest_language (q : List (Nat × String)) (lang : String) (batchSize : Nat)
    (articleFiles : List (List Article)) (linkFiles : List (List RawLink)) :
    List StoreBatch :=
  let tm := build_title_map q lang articleFiles.flatten
  ((articleFiles.map
      (fun f => (create_batches_concepts q lang batchSize f).map StoreBatch.concepts)).flatten)
  ++ ((articleFiles.map
      (fun f => (create_batches_articles q lang batchSize f).map StoreBatch.articles)).flatten)
  ++ ((linkFiles.map
      (fun f => (create_batches_links tm batchSize f).map StoreBatch.links)).flatten)

/-- The checkpoint record written by `save_checkpoint`
(phase1_enhanced.py:67-76): last article id, batch number and the two
run counters. The wall-clock `timestamp` field
(`datetime.now().isoformat()`) is outside the embedding. -/
structure Checkpoint where
  last_article_id : Nat
  batch_number : Nat
  articles_processed : Nat
  redirects_found : Nat
deriving DecidableEq, Repr

/-- One flushed pair of shard files (`articles_batch_NNNN`,
`links_batch_NNNN`): batch number and contents. -/
structure Flush where
  num : Nat
  articles : List Article
  links : List (String × String)
deriving DecidableEq, Repr

/-- A page record as it reaches the parser main loops: either a redirect or
an article with its extracted raw link targets. -/
inductive PageRec where
  | redirect (alias_ target : String)
  | article (a : Article) (links : List String)
deriving DecidableEq, Repr

/-- State of the enhanced parser run (phase1_enhanced.py:252-307):
buffers, batch number, the two counters, and the flushes and checkpoints
written so far. -/
structure PState where
  buffer : List Article
  linksBuffer : List (String × String)
  batchNum : Nat
  articlesProcessed : Nat
  redirectsFound : Nat
  flushed : List Flush
  checkpoints : List Checkpoint
deriving DecidableEq, Repr

/-- `EnhancedParser.write_batch` (phase1_enhanced.py:309-326): write the two
shard files, then — `if articles:` — `save_checkpoint(articles[-1]['id'],
batch_num)`; the caller resets the buffers and increments the batch number. -/
def write_batch (s : PState) : PState :=
  { buffer := [], linksBuffer := [],
    batchNum := s.batchNum + 1,
    articlesProcessed := s.articlesProcessed,
    redirectsFound := s.redirectsFound,
    flushed := s.flushed ++ [⟨s.batchNum, s.buffer, s.linksBuffer⟩],
    checkpoints := s.checkpoints ++
      (match s.buffer.getLast? with
       | some a => [⟨a.id, s.batchNum, s.articlesProcessed, s.redirectsFound⟩]
       | none => []) }

/-- The flush condition of the enhanced main loop
(phase1_enhanced.py:291-296): `if len(articles_buffer) >= self.batch_size`. -/
def stepFlush (batchSize : Nat) (s : PState) : PState :=
  if batchSize ≤ s.buffer.length then write_batch s else s

/-- One iteration of `process_dump` (phase1_enhanced.py:264-302): a redirect
bumps `redirects_found` (inside `process_article`) and `articles_processed`;
an article is buffered with its links and bumps `articles_processed`; then
the flush condition is checked. -/
def processRec (batchSize : Nat) (s : PState) (r : PageRec) : PState :=
  match r with
  | .redirect _ _ =>
    stepFlush batchSize
      { s with redirectsFound := s.redirectsFound + 1,
               articlesProcessed := s.articlesProcessed + 1 }
  | .article a ls =>
    stepFlush batchSize
      { s with buffer := s.buffer ++ [a],
               linksBuffer := s.linksBuffer ++ ls.map (fun t => (a.title, t)),
               articlesProcessed := s.articlesProcessed + 1 }

/-- Initial state of `process_dump`: `batch_num = 1`, empty buffers. -/
def initPState : PState := ⟨[], [], 1, 0, 0, [], []⟩

/-- `EnhancedParser.process_dump` (phase1_enhanced.py:252-307): fold the
page stream, then write the final partial batch if non-empty. -/
def process_dump (batchSize : Nat) (stream : List PageRec) : PState :=
  let s := stream.foldl (processRec batchSize) initPState
  if s.buffer.isEmpty then s else write_batch s

/-- State of the core parser run (parser.py:105-153): buffers, batch
number, flushes. `checkpoints` records checkpoint-file writes; the body
of `core/parser.py:main` contains none. -/
structure CState where
  buffer : List Article
  linksBuffer : List (String × String)
  batchNum : Nat
  flushed : List Flush
  checkpoints : List Checkpoint
deriving DecidableEq, Repr

/-- The flush of the core parser (parser.py:140-146 and 149-153): write the
two shard files, reset buffers, increment the batch number — and nothing
else; no checkpoint write appears in the source. -/
def core_write_batch (s : CState) : CState :=
  { buffer := [], linksBuffer := [], batchNum := s.batchNum + 1,
    flushed := s.flushed ++ [⟨s.batchNum, s.buffer, s.linksBuffer⟩],
    checkpoints := s.checkpoints }

/-- One iteration of the core parser main loop (parser.py:130-146):
redirects are streamed straight to the redirect file; articles are buffered
with their links, then the flush condition `len(articles_buffer) >=
args.batch_size` is checked. -/
def core_processRec (batchSize : Nat) (s : CState) (r : PageRec) : CState :=
  match r with
  | .redirect _ _ => s
  | .article a ls =>
    let s1 : CState :=
      { s with buffer := s.buffer ++ [a],
               linksBuffer := s.linksBuffer ++ ls.map (fun t => (a.title, t)) }
    if batchSize ≤ s1.buffer.length then core_write_batch s1 else s1

/-- `core/parser.py:main` batch loop (parser.py:105-153): fold the page
stream from `batch_num = 1`, then write the final partial batch if
non-empty. -/
def core_main (batchSize : Nat) (stream : List PageRec) : CState :=
  let s := stream.foldl (core_processRec batchSize) ⟨[], [], 1, [], []⟩
  if s.buffer.isEmpty then s else core_write_batch s

/-! ## Helper lemmas about dict lookup -/

theorem dictGet_cons [BEq α] (p : α × β) (m : List (α × β)) (k : α) :
    dictGet (p :: m) k = (dictGet m k).or (if p.1 == k then some p.2 else none) := by
  cases h : dictGet m k <;> simp [dictGet, h, Option.or]

theorem dictGet_filterMap_none [BEq α] [LawfulBEq α] {f : γ → Option (α × β)}
    {l : List γ} {k : α} (h : ∀ c ∈ l, ∀ kv, f c = some kv → kv.1 ≠ k) :
    dictGet (l.filterMap f) k = none := by
  induction l with
  | nil => rfl
  | cons c l ih =>
    have hrest : dictGet (l.filterMap f) k = none :=
      ih (fun b hb => h b (List.mem_cons_of_mem _ hb))
    cases hfc : f c with
    | none => simpa [List.filterMap_cons, hfc] using hrest
    | some kv =>
      have hne : kv.1 ≠ k := h c (List.mem_cons_self c l) kv hfc
      simp [List.filterMap_cons, hfc, dictGet_cons, hrest, hne]

theorem dictGet_filterMap_mem [BEq α] [LawfulBEq α] {f : γ → Option (α × β)}
    {l : List γ} {k : α} {w : β} (h : dictGet (l.filterMap f) k = some w) :
    ∃ c ∈ l, f c = some (k, w) := by
  induction l with
  | nil => simp [dictGet, List.filterMap_nil] at h
  | cons c l ih =>
    cases hfc : f c with
    | none =>
      rw [List.filterMap_cons, hfc] at h
      obtain ⟨b, hb, hfb⟩ := ih h
      exact ⟨b, List.mem_cons_of_mem _ hb, hfb⟩
    | some kv =>
      rw [List.filterMap_cons, hfc, dictGet_cons] at h
      cases hr : dictGet (l.filterMap f) k with
      | some v =>
        rw [hr] at h
        obtain ⟨b, hb, hfb⟩ := ih (hr.trans (by simpa [Option.or] using h))
        exact ⟨b, List.mem_cons_of_mem _ hb, hfb⟩
      | none =>
        rw [hr] at h
        simp only [Option.or] at h
        by_cases hk : kv.1 == k
        · rw [if_pos hk] at h
          refine ⟨c, List.mem_cons_self c l, ?_⟩
          have h1 : kv.1 = k := eq_of_beq hk
          have h2 : kv.2 = w := by injection h
          rw [hfc]
          cases kv
          simp_all
        · rw [if_neg hk] at h
          cases h

theorem dictGet_filterMap_some [BEq α] [LawfulBEq α] {f : γ → Option (α × β)}
    {l : List γ} {k : α} {v : β} {a : γ} (ha : a ∈ l) (hfa : f a = some (k, v))
    (huniq : ∀ b ∈ l, ∀ kv, f b = some kv → kv.1 = k → kv.2 = v) :
    dictGet (l.filterMap f) k = some v := by
  induction l with
  | nil => cases ha
  | cons c l ih =>
    rcases List.mem_cons.mp ha with rfl | ha'
    · cases hr : dictGet (l.filterMap f) k with
      | some w =>
        obtain ⟨b, hb, hfb⟩ := dictGet_filterMap_mem hr
        have hw : w = v := huniq b (List.mem_cons_of_mem _ hb) (k, w) hfb rfl
        rw [List.filterMap_cons, hfa, dictGet_cons, hr, hw]
        simp [Option.or]
      | none =>
        rw [List.filterMap_cons, hfa, dictGet_cons, hr]
        simp [Option.or]
    · have hrest := ih ha' (fun b hb => huniq b (List.mem_cons_of_mem _ hb))
      cases hfc : f c with
      | none => simpa [List.filterMap_cons, hfc] using hrest
      | some kv => simp [List.filterMap_cons, hfc, dictGet_cons, hrest, Option.or]

theorem build_title_map_eq_filterMap (q : List (Nat × String)) (lang : String)
    (arts : List Article) :
    build_title_map q lang arts
      = arts.filterMap (fun a => some (a.title, get_qid q lang a.id)) := by
  induction arts with
  | nil => rfl
  | cons a l ih => simp [build_title_map, List.filterMap_cons] at *; exact ih

/-! ## C6: synthetic identifier fallback -/

/-- C6. For every page id absent from the PageId→ConceptId map,
`get_qid` returns the synthetic identifier `local:<language>:<pageId>`
(graph_engine.py:35-37, bulk_exporter.py:48,97); being a total function
into `String`, resolution always returns some ConceptId. -/
theorem get_qid_synthetic_fallback (q : List (Nat × String)) (lang : String)
    (pid : Nat) (h : dictGet q pid = none) :
    get_qid q lang pid = "local:" ++ lang ++ ":" ++ toString pid := by
  simp [get_qid, h]

/-- Witness for C6 at a concrete absent page id. -/
theorem get_qid_synthetic_fallback_witness :
    dictGet ([(10, "Q89")] : List (Nat × String)) 7 = none ∧
    get_qid [(10, "Q89")] "en" 7 = "local:" ++ "en" ++ ":" ++ toString 7 :=
  ⟨by decide, get_qid_synthetic_fallback [(10, "Q89")] "en" 7 (by decide)⟩

/-! ## C10: duplicate titles, last record wins -/

/-- C10. Title lookup in the Title→ConceptId index built by
`build_title_map` (bulk_exporter.py:33-55) / `build_title_qid_map`
(graph_engine.py:122-137) returns exactly the ConceptId of the LAST record
with that title in reading order (files in sorted order, lines in file
order): titles are inserted by plain dictionary assignment, with no
de-duplication or normalization, so the ConceptIds of all earlier
same-titled records are unreachable by title lookup. -/
theorem title_map_last_record_wins (q : List (Nat × String)) (lang : String)
    (arts : List Article) (t : String) :
    dictGet (build_title_map q lang arts) t
      = (arts.reverse.find? (fun a => a.title == t)).map
          (fun a => get_qid q lang a.id) := by
  induction arts with
  | nil => rfl
  | cons a l ih =>
    simp only [build_title_map, List.map_cons] at ih ⊢
    rw [dictGet_cons, ih, List.reverse_cons, List.find?_append]
    cases h : List.find? (fun a => a.title == t) l.reverse with
    | some b => simp [h, Option.or]
    | none =>
      by_cases ht : a.title = t
      · simp [h, Option.or, List.find?_cons, ht]
      · simp [h, Option.or, List.find?_cons, ht]

/-! ## C1: self-edges are not dropped -/

/-- Counterexample to C1: the article ⟨1, "A"⟩ (absent from the QID map,
hence ConceptId `local:en:1`) with the raw link ("A", "A") makes both
titles resolve to the same ConceptId, yet link resolution
(bulk_exporter.py:123-135, graph_engine.py:162-176) emits the edge
`(local:en:1, local:en:1)` — a self-edge — instead of dropping it. -/
theorem self_edge_emitted_example :
    resolveLinks (build_title_map [] "en" [⟨1, "A"⟩]) [⟨"A", "A"⟩]
      = [("local:en:1", "local:en:1")] := by decide

/-- C1 amended: a RawLink both of whose titles resolve to truthy
(non-empty) ConceptIds is always emitted, even when the source and target
ConceptIds coincide; resolution never compares the two ConceptIds, so
self-edges are not dropped. -/
theorem resolved_link_always_emitted (tm : List (String × String)) (l : RawLink)
    (s t : String) (hs : dictGet tm l.src = some s) (ht : dictGet tm l.tgt = some t)
    (hs' : s ≠ "") (ht' : t ≠ "") :
    resolveLink tm l = some (s, t) := by
  simp [resolveLink, hs, ht, truthy, hs', ht']

/-- Witness for amended C1 at the self-edge input: both titles resolve to
the same ConceptId and the (self-)edge is emitted. -/
theorem resolved_link_always_emitted_witness :
    dictGet (build_title_map [] "en" [⟨1, "A"⟩]) "A" = some "local:en:1" ∧
    resolveLink (build_title_map [] "en" [⟨1, "A"⟩]) ⟨"A", "A"⟩
      = some ("local:en:1", "local:en:1") :=
  ⟨by decide,
   resolved_link_always_emitted (build_title_map [] "en" [⟨1, "A"⟩]) ⟨"A", "A"⟩
     "local:en:1" "local:en:1" (by decide) (by decide) (by decide) (by decide)⟩

/-! ## C7: unresolved targets are dropped and counted -/

/-- C7. A RawLink whose target title is absent from the Title→ConceptId
index produces no edge and is dropped without error: `resolveLink` returns
`none`, and the export loop step (bulk_exporter.py:123-135) leaves the
emitted edges unchanged while incrementing `link_count` and not
`resolved_count` — so the unresolved count
(`link_count - resolved_count`) grows by one. -/
theorem unresolved_target_dropped_counted (tm : List (String × String))
    (l : RawLink) (st : LinkStats) (es : List (String × String))
    (h : dictGet tm l.tgt = none) :
    resolveLink tm l = none ∧
    processLinksStep tm (st, es) l
      = ({ link_count := st.link_count + 1, resolved_count := st.resolved_count }, es) := by
  have hr : resolveLink tm l = none := by
    unfold resolveLink
    cases hs : dictGet tm l.src <;> simp [h, hs]
  exact ⟨hr, by simp [processLinksStep, hr]⟩

/-- Witness for C7 at the spec scenario: RawLink ("Apple", "Nonexistent")
with the only article ⟨10, "Apple"⟩ (QID Q89) — no edge, no error,
link_count goes 0→1 while resolved_count stays 0. -/
theorem unresolved_target_dropped_counted_witness :
    dictGet (build_title_map [(10, "Q89")] "en" [⟨10, "Apple"⟩]) "Nonexistent" = none ∧
    (resolveLink (build_title_map [(10, "Q89")] "en" [⟨10, "Apple"⟩])
        ⟨"Apple", "Nonexistent"⟩ = none ∧
      processLinksStep (build_title_map [(10, "Q89")] "en" [⟨10, "Apple"⟩])
        (⟨0, 0⟩, []) ⟨"Apple", "Nonexistent"⟩
        = ({ link_count := 0 + 1, resolved_count := 0 }, [])) :=
  ⟨by decide,
   unresolved_target_dropped_counted (build_title_map [(10, "Q89")] "en" [⟨10, "Apple"⟩])
     ⟨"Apple", "Nonexistent"⟩ ⟨0, 0⟩ [] (by decide)⟩

/-! ## C4: a missing property dump is fatal, not degraded -/

/-- Counterexample to C4: with the property dump missing, the bulk export
run raises `FileNotFoundError` out of `load_qid_map`
(bulk_exporter.py:22-31 has no exception handler) instead of proceeding in
degraded mode; no warning-and-continue path exists
(`load_resolver_to_memory`, graph_engine.py:113-120, likewise reads the
CSV unguarded). -/
theorem missing_qid_map_raises :
    bulk_export none "en" [⟨1, "A"⟩] [⟨"A", "A"⟩]
      = Except.error "FileNotFoundError" := rfl

/-- C4 amended: a missing or unreadable property dump is fatal — the
`FileNotFoundError` propagates uncaught and the run aborts; only with a
readable dump does the run proceed, and the synthetic-identifier degraded
behaviour exists solely per page (pages absent from a loaded map, cf. C6),
not per missing file. -/
theorem missing_qid_map_fatal (lang : String) (articles : List Article)
    (links : List RawLink) (q : List (Nat × String)) :
    bulk_export none lang articles links = Except.error "FileNotFoundError" ∧
    bulk_export (some q) lang articles links
      = Except.ok (process_files (build_title_map q lang articles) links) :=
  ⟨rfl, rfl⟩

/-! ## C3: idempotency of batch writes -/

theorem mergeConcept_of_mem {s : Store} {q : String} (h : q ∈ s.concepts) :
    mergeConcept s q = s := by simp [mergeConcept, h]

theorem mem_mergeConcept {s : Store} {q q' : String} (h : q ∈ s.concepts) :
    q ∈ (mergeConcept s q').concepts := by
  by_cases h' : q' ∈ s.concepts <;> simp [mergeConcept, h', h]

theorem mem_mergeConcept_self (s : Store) (q : String) :
    q ∈ (mergeConcept s q).concepts := by
  by_cases h : q ∈ s.concepts <;> simp [mergeConcept, h]

theorem mem_process_concept_batch_mono {b : List String} {s : Store} {q : String}
    (h : q ∈ s.concepts) : q ∈ (process_concept_batch b s).concepts := by
  induction b generalizing s with
  | nil => exact h
  | cons x b ih => exact ih (mem_mergeConcept h)

theorem mem_process_concept_batch {b : List String} {s : Store} :
    ∀ q ∈ b, q ∈ (process_concept_batch b s).concepts := by
  induction b generalizing s with
  | nil => intro q hq; cases hq
  | cons x b ih =>
    intro q hq
    rcases List.mem_cons.mp hq with rfl | hq'
    · show q ∈ (process_concept_batch b (mergeConcept s q)).concepts
      exact mem_process_concept_batch_mono (mem_mergeConcept_self s q)
    · exact ih q hq'

theorem process_concept_batch_of_all_mem {b : List String} {s : Store}
    (h : ∀ q ∈ b, q ∈ s.concepts) : process_concept_batch b s = s := by
  induction b with
  | nil => rfl
  | cons x b ih =>
    have hx := mergeConcept_of_mem (h x (List.mem_cons_self x b))
    calc process_concept_batch (x :: b) s
        = process_concept_batch b (mergeConcept s x) := rfl
      _ = process_concept_batch b s := by rw [hx]
      _ = s := ih (fun q hq => h q (List.mem_cons_of_mem _ hq))

theorem mergeArticleNode_concepts (lang : String) (s : Store) (r : ArticleRow) :
    (mergeArticleNode lang s r).concepts = s.concepts := by
  unfold mergeArticleNode; split <;> rfl

theorem mergeArticleNode_reps (lang : String) (s : Store) (r : ArticleRow) :
    (mergeArticleNode lang s r).reps = s.reps := by
  unfold mergeArticleNode; split <;> rfl

theorem mergeRep_concepts (r : ArticleRow) (s : Store) :
    (mergeRep r s).concepts = s.concepts := by
  unfold mergeRep; split <;> rfl

theorem mergeRep_articles (r : ArticleRow) (s : Store) :
    (mergeRep r s).articles = s.articles := by
  unfold mergeRep; split <;> rfl

theorem mergeRep_reps_mono {r : ArticleRow} {s : Store} {x : String × String}
    (h : x ∈ s.reps) : x ∈ (mergeRep r s).reps := by
  unfold mergeRep; split
  · exact h
  · simp [h]

theorem mergeArticleNode_any {lang : String} {s : Store} {r : ArticleRow}
    {p : String × String × String → Bool} (h : s.articles.any p = true) :
    (mergeArticleNode lang s r).articles.any p = true := by
  unfold mergeArticleNode; split
  · exact h
  · simp [List.any_append, h]

theorem mergeArticleRow_concepts (lang : String) (s : Store) (r : ArticleRow) :
    (mergeArticleRow lang s r).concepts = s.concepts := by
  unfold mergeArticleRow; split
  · rw [mergeRep_concepts, mergeArticleNode_concepts]
  · rfl

theorem mergeArticleRow_any {lang : String} {s : Store} {r' : ArticleRow}
    {p : String × String × String → Bool} (h : s.articles.any p = true) :
    (mergeArticleRow lang s r').articles.any p = true := by
  unfold mergeArticleRow; split
  · rw [mergeRep_articles]; exact mergeArticleNode_any h
  · exact h

theorem mergeArticleRow_reps_mono {lang : String} {s : Store} {r' : ArticleRow}
    {x : String × String} (h : x ∈ s.reps) : x ∈ (mergeArticleRow lang s r').reps := by
  unfold mergeArticleRow; split
  · exact mergeRep_reps_mono (by rw [mergeArticleNode_reps]; exact h)
  · exact h

theorem mergeArticleRow_of_done {lang : String} {s : Store} {r : ArticleRow}
    (h : artDone lang s r) : mergeArticleRow lang s r = s := by
  unfold mergeArticleRow
  split
  case isTrue hc =>
    obtain ⟨h1, h2⟩ := h hc
    have hn : mergeArticleNode lang s r = s := by
      unfold mergeArticleNode; rw [if_pos h1]
    rw [hn]; unfold mergeRep; rw [if_pos h2]
  case isFalse => rfl

theorem artDone_merge {lang : String} {s : Store} {r r' : ArticleRow}
    (h : artDone lang s r) : artDone lang (mergeArticleRow lang s r') r := by
  intro hc
  rw [mergeArticleRow_concepts] at hc
  obtain ⟨h1, h2⟩ := h hc
  exact ⟨mergeArticleRow_any h1, mergeArticleRow_reps_mono h2⟩

theorem artDone_self (lang : String) (s : Store) (r : ArticleRow) :
    artDone lang (mergeArticleRow lang s r) r := by
  intro hc
  rw [mergeArticleRow_concepts] at hc
  unfold mergeArticleRow
  rw [if_pos hc]
  constructor
  · rw [mergeRep_articles]
    unfold mergeArticleNode
    split
    case isTrue h1 => exact h1
    case isFalse => simp [List.any_append]
  · unfold mergeRep
    split
    case isTrue h2 => exact h2
    case isFalse => simp

theorem artDone_fold_mono {b : List ArticleRow} {lang : String} {s : Store}
    {r : ArticleRow} (h : artDone lang s r) :
    artDone lang (process_article_batch b lang s) r := by
  induction b generalizing s with
  | nil => exact h
  | cons x b ih => exact ih (artDone_merge h)

theorem artDone_fold_all {b : List ArticleRow} {lang : String} {s : Store} :
    ∀ r ∈ b, artDone lang (process_article_batch b lang s) r := by
  induction b generalizing s with
  | nil => intro r hr; cases hr
  | cons x b ih =>
    intro r hr
    rcases List.mem_cons.mp hr with rfl | hr'
    · show artDone lang (process_article_batch b lang (mergeArticleRow lang s r)) r
      exact artDone_fold_mono (artDone_self lang s r)
    · exact ih r hr'

theorem process_article_batch_of_all_done {b : List ArticleRow} {lang : String}
    {s : Store} (h : ∀ r ∈ b, artDone lang s r) :
    process_article_batch b lang s = s := by
  induction b with
  | nil => rfl
  | cons x b ih =>
    have hx := mergeArticleRow_of_done (h x (List.mem_cons_self x b))
    calc process_article_batch (x :: b) lang s
        = process_article_batch b lang (mergeArticleRow lang s x) := rfl
      _ = process_article_batch b lang s := by rw [hx]
      _ = s := ih (fun r hr => h r (List.mem_cons_of_mem _ hr))

theorem mergeLinkRow_concepts (s : Store) (r : String × String) :
    (mergeLinkRow s r).concepts = s.concepts := by
  unfold mergeLinkRow
  split
  · split <;> rfl
  · rfl

theorem mergeLinkRow_links_mono {s : Store} {r' x : String × String}
    (h : x ∈ s.links) : x ∈ (mergeLinkRow s r').links := by
  unfold mergeLinkRow
  split
  · split
    · exact h
    · simp [h]
  · exact h

theorem mergeLinkRow_of_done {s : Store} {r : String × String}
    (h : linkDone s r) : mergeLinkRow s r = s := by
  unfold mergeLinkRow
  split
  case isTrue hc => rw [if_pos (h hc)]
  case isFalse => rfl

theorem linkDone_merge {s : Store} {r r' : String × String}
    (h : linkDone s r) : linkDone (mergeLinkRow s r') r := by
  intro hc
  rw [mergeLinkRow_concepts] at hc
  exact mergeLinkRow_links_mono (h hc)

theorem linkDone_self (s : Store) (r : String × String) :
    linkDone (mergeLinkRow s r) r := by
  intro hc
  rw [mergeLinkRow_concepts] at hc
  unfold mergeLinkRow
  rw [if_pos hc]
  split
  case isTrue h2 => exact h2
  case isFalse => simp

theorem linkDone_fold_mono {b : List (String × String)} {s : Store}
    {r : String × String} (h : linkDone s r) :
    linkDone (process_link_batch b s) r := by
  induction b generalizing s with
  | nil => exact h
  | cons x b ih => exact ih (linkDone_merge h)

theorem linkDone_fold_all {b : List (String × String)} {s : Store} :
    ∀ r ∈ b, linkDone (process_link_batch b s) r := by
  induction b generalizing s with
  | nil => intro r hr; cases hr
  | cons x b ih =>
    intro r hr
    rcases List.mem_cons.mp hr with rfl | hr'
    · show linkDone (process_link_batch b (mergeLinkRow s r)) r
      exact linkDone_fold_mono (linkDone_self s r)
    · exact ih r hr'

theorem process_link_batch_of_all_done {b : List (String × String)} {s : Store}
    (h : ∀ r ∈ b, linkDone s r) : process_link_batch b s = s := by
  induction b with
  | nil => rfl
  | cons x b ih =>
    have hx := mergeLinkRow_of_done (h x (List.mem_cons_self x b))
    calc process_link_batch (x :: b) s
        = process_link_batch b (mergeLinkRow s x) := rfl
      _ = process_link_batch b s := by rw [hx]
      _ = s := ih (fun r hr => h r (List.mem_cons_of_mem _ hr))

/-- Counterexample to C3: the parallel link loader
(`Neo4jLoader.load_links_parallel`, neo4j_loader.py:74-103) writes edges
with `CREATE`, not `MERGE`: re-applying the one-row batch [(1,2)] to a
store holding articles 1 and 2 duplicates the edge, so the second
application changes the store again. -/
theorem create_link_batch_not_idempotent :
    load_links_batch [(1, 2)] (load_links_batch [(1, 2)] ⟨[1, 2], []⟩)
      ≠ load_links_batch [(1, 2)] ⟨[1, 2], []⟩ := by decide

/-- C3 amended: the engine's batch writes are idempotent — Concept batches
(`MERGE` by qid), Article batches (`MERGE` by id plus `MERGE` of the
REPRESENTS edge) and the engine's link batches (`MERGE` of LINKS_TO,
graph_engine.py:71-88) leave the store unchanged when re-applied — but the
parallel loader's link batches (neo4j_loader.py:77-82) use `CREATE` and
are NOT idempotent (see the counterexample). -/
theorem merge_batches_idempotent (s : Store) (lang : String) (cb : List String)
    (ab : List ArticleRow) (lb : List (String × String)) :
    process_concept_batch cb (process_concept_batch cb s)
      = process_concept_batch cb s ∧
    process_article_batch ab lang (process_article_batch ab lang s)
      = process_article_batch ab lang s ∧
    process_link_batch lb (process_link_batch lb s)
      = process_link_batch lb s := by
  refine ⟨?_, ?_, ?_⟩
  · exact process_concept_batch_of_all_mem (fun q hq => mem_process_concept_batch q hq)
  · exact process_article_batch_of_all_done (fun r hr => artDone_fold_all r hr)
  · exact process_link_batch_of_all_done (fun r hr => linkDone_fold_all r hr)

/-! ## C9: three-phase ordering of the bulk loader -/

/-- C9. Every run of `ingest_language` (graph_engine.py:182-216) issues all
Concept batch writes before any Article batch write, and all Article batch
writes before any LINKS_TO batch write: the issued write sequence is
monotone in phase (1 = Concepts, 2 = Articles, 3 = Links), with each
phase's `list(executor.map(...))` completing before the next phase starts. -/
theorem ingest_phases_ordered (q : List (Nat × String)) (lang : String)
    (batchSize : Nat) (articleFiles : List (List Article))
    (linkFiles : List (List RawLink)) :
    (ingest_language q lang batchSize articleFiles linkFiles).Pairwise
      (fun x y => phaseIndex x ≤ phaseIndex y) := by
  have const_pairwise : ∀ (l : List StoreBatch) (k : Nat),
      (∀ x ∈ l, phaseIndex x = k) →
      l.Pairwise (fun x y => phaseIndex x ≤ phaseIndex y) := by
    intro l k h
    exact List.pairwise_of_forall_mem_list (fun a ha b hb => by rw [h a ha, h b hb])
  have seg_phase : ∀ {β : Type} (files : List β) (g : β → List StoreBatch) (k : Nat),
      (∀ f, ∀ x ∈ g f, phaseIndex x = k) →
      ∀ x ∈ (files.map g).flatten, phaseIndex x = k := by
    intro β files g k hg x hx
    obtain ⟨f, hf, hxf⟩ := List.mem_flatten.mp hx
    obtain ⟨f0, _, rfl⟩ := List.mem_map.mp hf
    exact hg f0 x hxf
  have h1 := seg_phase articleFiles
    (fun f => (create_batches_concepts q lang batchSize f).map StoreBatch.concepts) 1
    (by intro f x hx; obtain ⟨b, _, rfl⟩ := List.mem_map.mp hx; rfl)
  have h2 := seg_phase articleFiles
    (fun f => (create_batches_articles q lang batchSize f).map StoreBatch.articles) 2
    (by intro f x hx; obtain ⟨b, _, rfl⟩ := List.mem_map.mp hx; rfl)
  have h3 := seg_phase linkFiles
    (fun f => (create_batches_links (build_title_map q lang articleFiles.flatten)
        batchSize f).map StoreBatch.links) 3
    (by intro f x hx; obtain ⟨b, _, rfl⟩ := List.mem_map.mp hx; rfl)
  show List.Pairwise _ (_ ++ _ ++ _)
  refine List.pairwise_append.mpr
    ⟨List.pairwise_append.mpr ⟨const_pairwise _ 1 h1, const_pairwise _ 2 h2, ?_⟩,
     const_pairwise _ 3 h3, ?_⟩
  · intro a ha b hb
    rw [h1 a ha, h2 b hb]
    omega
  · intro a ha b hb
    rcases List.mem_append.mp ha with ha' | ha'
    · rw [h1 a ha', h3 b hb]; omega
    · rw [h2 a ha', h3 b hb]; omega

/-! ## C5: checkpoint after every flush -/

/-- Counterexample to C5: the core parser (core/parser.py:105-153, one of
the two batch writers the claim is about) flushes a full batch of two
articles but persists no Checkpoint whatsoever — its main loop contains no
checkpoint write. -/
theorem core_parser_writes_no_checkpoint :
    (core_main 2 [PageRec.article ⟨1, "A"⟩ [], PageRec.article ⟨2, "B"⟩ []]).flushed
      = [⟨1, [⟨1, "A"⟩, ⟨2, "B"⟩], []⟩] ∧
    (core_main 2 [PageRec.article ⟨1, "A"⟩ [], PageRec.article ⟨2, "B"⟩ []]).checkpoints
      = [] := by decide

/-- C5 amended: the ENHANCED parser (`EnhancedParser.write_batch`,
phase1_enhanced.py:309-326) persists, after every flush, a Checkpoint
whose `batch_number` is the flushed batch's number and whose
`last_article_id` is the id of the last article of that batch (flushes and
checkpoints correspond one-to-one, in order; the checkpoint also carries
the run counters, and a wall-clock timestamp outside this embedding); the
core parser (core/parser.py) persists no checkpoint at all. -/
theorem checkpoint_after_every_flush (batchSize : Nat) (hbs : 0 < batchSize)
    (stream : List PageRec) :
    List.Forall₂
      (fun f c => f.num = c.batch_number ∧
        (f.articles.getLast?).map Article.id = some c.last_article_id)
      (process_dump batchSize stream).flushed
      (process_dump batchSize stream).checkpoints ∧
    (core_main batchSize stream).checkpoints = [] := by
  constructor
  · have hwb : ∀ s : PState, s.buffer ≠ [] →
        List.Forall₂
          (fun f c => f.num = c.batch_number ∧
            (f.articles.getLast?).map Article.id = some c.last_article_id)
          s.flushed s.checkpoints →
        List.Forall₂
          (fun f c => f.num = c.batch_number ∧
            (f.articles.getLast?).map Article.id = some c.last_article_id)
          (write_batch s).flushed (write_batch s).checkpoints := by
      intro s hne hinv
      obtain ⟨a, ha⟩ : ∃ a, s.buffer.getLast? = some a := by
        cases hb : s.buffer.getLast? with
        | none => exact absurd (List.getLast?_eq_none_iff.mp hb) hne
        | some a => exact ⟨a, rfl⟩
      unfold write_batch
      rw [ha]
      exact List.rel_append hinv
        (List.Forall₂.cons ⟨rfl, by simp [ha]⟩ List.Forall₂.nil)
    have hstep : ∀ (s : PState) (r : PageRec),
        List.Forall₂
          (fun f c => f.num = c.batch_number ∧
            (f.articles.getLast?).map Article.id = some c.last_article_id)
          s.flushed s.checkpoints →
        List.Forall₂
          (fun f c => f.num = c.batch_number ∧
            (f.articles.getLast?).map Article.id = some c.last_article_id)
          (processRec batchSize s r).flushed (processRec batchSize s r).checkpoints := by
      intro s r hinv
      have hflush : ∀ s' : PState,
          s'.flushed = s.flushed → s'.checkpoints = s.checkpoints →
          List.Forall₂
            (fun f c => f.num = c.batch_number ∧
              (f.articles.getLast?).map Article.id = some c.last_article_id)
            (stepFlush batchSize s').flushed (stepFlush batchSize s').checkpoints := by
        intro s' hf hc
        unfold stepFlush
        split
        case isTrue hlen =>
          refine hwb s' ?_ (by rw [hf, hc]; exact hinv)
          have : 0 < s'.buffer.length := lt_of_lt_of_le hbs hlen
          exact List.ne_nil_of_length_pos this
        case isFalse => rw [hf, hc]; exact hinv
      cases r with
      | redirect x y => exact hflush _ rfl rfl
      | article a ls => exact hflush _ rfl rfl
    have hfold : ∀ (st : List PageRec) (s : PState),
        List.Forall₂
          (fun f c => f.num = c.batch_number ∧
            (f.articles.getLast?).map Article.id = some c.last_article_id)
          s.flushed s.checkpoints →
        List.Forall₂
          (fun f c => f.num = c.batch_number ∧
            (f.articles.getLast?).map Article.id = some c.last_article_id)
          (st.foldl (processRec batchSize) s).flushed
          (st.foldl (processRec batchSize) s).checkpoints := by
      intro st
      induction st with
      | nil => intro s h; exact h
      | cons r st ih => intro s h; exact ih _ (hstep s r h)
    have hbase := hfold stream initPState List.Forall₂.nil
    have hpd : process_dump batchSize stream =
        if (stream.foldl (processRec batchSize) initPState).buffer.isEmpty then
          stream.foldl (processRec batchSize) initPState
        else write_batch (stream.foldl (processRec batchSize) initPState) := rfl
    rw [hpd]
    split
    case isTrue => exact hbase
    case isFalse hne =>
      exact hwb _ (by simpa [List.isEmpty_iff] using hne) hbase
  · have hstep : ∀ (s : CState) (r : PageRec),
        (core_processRec batchSize s r).checkpoints = s.checkpoints := by
      intro s r
      cases r with
      | redirect x y => rfl
      | article a ls =>
        simp only [core_processRec]
        split
        · rfl
        · rfl
    have hfold : ∀ (st : List PageRec) (s : CState),
        (st.foldl (core_processRec batchSize) s).checkpoints = s.checkpoints := by
      intro st
      induction st with
      | nil => intro s; rfl
      | cons r st ih =>
        intro s
        show (List.foldl (core_processRec batchSize) (core_processRec batchSize s r) st).checkpoints
          = s.checkpoints
        rw [ih, hstep]
    have hcm : core_main batchSize stream =
        if (stream.foldl (core_processRec batchSize) ⟨[], [], 1, [], []⟩).buffer.isEmpty then
          stream.foldl (core_processRec batchSize) ⟨[], [], 1, [], []⟩
        else core_write_batch (stream.foldl (core_processRec batchSize) ⟨[], [], 1, [], []⟩) := rfl
    rw [hcm]
    split
    case isTrue => exact hfold stream _
    case isFalse =>
      show (stream.foldl (core_processRec batchSize) ⟨[], [], 1, [], []⟩).checkpoints = []
      exact hfold stream _

/-- Witness for amended C5 at a concrete stream: two articles with batch
size 500 (one final flush, one matching checkpoint; no core checkpoint). -/
theorem checkpoint_after_every_flush_witness :
    0 < 500 ∧
    (List.Forall₂
      (fun f c => f.num = c.batch_number ∧
        (f.articles.getLast?).map Article.id = some c.last_article_id)
      (process_dump 500 [PageRec.article ⟨1, "A"⟩ [], PageRec.article ⟨2, "B"⟩ []]).flushed
      (process_dump 500 [PageRec.article ⟨1, "A"⟩ [], PageRec.article ⟨2, "B"⟩ []]).checkpoints ∧
    (core_main 500 [PageRec.article ⟨1, "A"⟩ [], PageRec.article ⟨2, "B"⟩ []]).checkpoints = []) :=
  ⟨by decide,
   checkpoint_after_every_flush 500 (by decide)
     [PageRec.article ⟨1, "A"⟩ [], PageRec.article ⟨2, "B"⟩ []]⟩

/-! ## C8: retry with exponential backoff and jitter -/

/-- C8. `execute_with_retry` (graph_engine.py:24-33), for any transient
error pattern and any per-attempt jitter drawn from [0, 0.5): (i) the sleep
before each successive retry strictly grows (exponential base delay
`0.5 * 2^attempt` dominates the jitter); (ii) if every attempt up to the
ceiling `max_retries = 5` fails, the loop sleeps after each of the first 4
failures and re-raises the last error — the failure is surfaced, never
swallowed by the loop falling through; (iii) a write that first succeeds on
attempt `a` returns normally, raising nothing, after the backoff sleeps of
the `a` failed attempts before it. -/
theorem retry_with_backoff_behavior (succeeds : Nat → Bool) (jitter : Nat → ℚ)
    (hj : ∀ a, 0 ≤ jitter a ∧ jitter a < 1/2) :
    (∀ a, backoffDelay jitter a < backoffDelay jitter (a + 1)) ∧
    ((∀ a, a < max_retries → succeeds a = false) →
      execute_with_retry succeeds jitter
        = (RetryOutcome.raised, (List.range (max_retries - 1)).map (backoffDelay jitter))) ∧
    (∀ a, a < max_retries → succeeds a = true → (∀ b, b < a → succeeds b = false) →
      execute_with_retry succeeds jitter
        = (RetryOutcome.ok a, (List.range a).map (backoffDelay jitter))) := by
  refine ⟨?_, ?_, ?_⟩
  · intro a
    have h1 := (hj a).2
    have h2 := (hj (a + 1)).1
    have hx : (1 : ℚ) ≤ 2 ^ a := one_le_pow₀ (by norm_num)
    unfold backoffDelay
    rw [pow_succ]
    linarith
  · intro hall
    have h0 := hall 0 (by norm_num [max_retries])
    have h1 := hall 1 (by norm_num [max_retries])
    have h2 := hall 2 (by norm_num [max_retries])
    have h3 := hall 3 (by norm_num [max_retries])
    have h4 := hall 4 (by norm_num [max_retries])
    norm_num [execute_with_retry, retryGo, max_retries, h0, h1, h2, h3, h4,
      List.range_succ]
  · intro a ha hs hprev
    have ha5 : a < 5 := by simpa [max_retries] using ha
    interval_cases a
    · norm_num [execute_with_retry, retryGo, max_retries, hs]
    · have h0 := hprev 0 (by norm_num)
      norm_num [execute_with_retry, retryGo, max_retries, hs, h0, List.range_succ]
    · have h0 := hprev 0 (by norm_num)
      have h1 := hprev 1 (by norm_num)
      norm_num [execute_with_retry, retryGo, max_retries, hs, h0, h1, List.range_succ]
    · have h0 := hprev 0 (by norm_num)
      have h1 := hprev 1 (by norm_num)
      have h2 := hprev 2 (by norm_num)
      norm_num [execute_with_retry, retryGo, max_retries, hs, h0, h1, h2, List.range_succ]
    · have h0 := hprev 0 (by norm_num)
      have h1 := hprev 1 (by norm_num)
      have h2 := hprev 2 (by norm_num)
      have h3 := hprev 3 (by norm_num)
      norm_num [execute_with_retry, retryGo, max_retries, hs, h0, h1, h2, h3, List.range_succ]

/-- Witness for C8 with constant jitter 1/4 and a write that succeeds on
attempt 2: the hypotheses hold and the call returns normally after the two
backoff sleeps. -/
theorem retry_with_backoff_behavior_witness :
    (∀ a : Nat, 0 ≤ (fun _ : Nat => (1 : ℚ)/4) a ∧ (fun _ : Nat => (1 : ℚ)/4) a < 1/2) ∧
    execute_with_retry (fun a => a == 2) (fun _ => 1/4)
      = (RetryOutcome.ok 2, (List.range 2).map (backoffDelay (fun _ => 1/4))) :=
  ⟨fun _ => by norm_num,
   (retry_with_backoff_behavior (fun a => a == 2) (fun _ => 1/4)
      (fun _ => by norm_num)).2.2 2 (by norm_num [max_retries]) (by decide)
      (fun b hb => by interval_cases b <;> decide)⟩

/-! ## C2: in-memory vs join-based resolution -/

theorem title_map_lookup_some {q : List (Nat × String)} {lang : String}
    {arts : List Article} {a : Article}
    (hp : arts.Pairwise (fun x y => x.title ≠ y.title)) (ha : a ∈ arts) :
    dictGet (build_title_map q lang arts) a.title = some (get_qid q lang a.id) := by
  have hsym : Symmetric (fun x y : Article => x.title ≠ y.title) :=
    fun x y h e => h e.symm
  rw [build_title_map_eq_filterMap]
  apply dictGet_filterMap_some ha rfl
  intro b hb kv hkv hk1
  have hkv' : kv = (b.title, get_qid q lang b.id) := by
    injection hkv with h1; exact h1.symm
  subst hkv'
  by_cases hab : b = a
  · subst hab; rfl
  · exact absurd hk1 (hp.forall hsym hb ha hab)

theorem title_map_lookup_none {q : List (Nat × String)} {lang : String}
    {arts : List Article} {t : String} (h : ∀ a ∈ arts, a.title ≠ t) :
    dictGet (build_title_map q lang arts) t = none := by
  rw [build_title_map_eq_filterMap]
  apply dictGet_filterMap_none
  intro c hc kv hkv
  have hkv' : kv = (c.title, get_qid q lang c.id) := by
    injection hkv with h1; exact h1.symm
  subst hkv'
  exact h c hc

theorem id_map_lookup_some {q : List (Nat × String)} {arts : List Article}
    {a : Article} {v : String}
    (hp : arts.Pairwise (fun x y => x.id ≠ y.id)) (ha : a ∈ arts)
    (hv : dictGet q a.id = some v) :
    dictGet (load_id_map q arts) a.id = some v := by
  have hsym : Symmetric (fun x y : Article => x.id ≠ y.id) :=
    fun x y h e => h e.symm
  unfold load_id_map
  apply dictGet_filterMap_some ha (by rw [hv]; rfl)
  intro b hb kv hkv hk1
  cases hq : dictGet q b.id with
  | none => rw [hq] at hkv; cases hkv
  | some w =>
    rw [hq] at hkv
    have hkv' : kv = (b.id, w) := by injection hkv with h1; exact h1.symm
    subst hkv'
    by_cases hab : b = a
    · subst hab
      rw [hq] at hv
      injection hv
    · exact absurd hk1 (hp.forall hsym hb ha hab)

theorem id_map_lookup_none {q : List (Nat × String)} {arts : List Article}
    {i : Nat} (h : ∀ a ∈ arts, a.id ≠ i) :
    dictGet (load_id_map q arts) i = none := by
  unfold load_id_map
  apply dictGet_filterMap_none
  intro c hc kv hkv
  cases hq : dictGet q c.id with
  | none => rw [hq] at hkv; cases hkv
  | some w =>
    rw [hq] at hkv
    have hkv' : kv = (c.id, w) := by injection hkv with h1; exact h1.symm
    subst hkv'
    exact h c hc

theorem title_map_join_lookup_some {q : List (Nat × String)} {arts : List Article}
    {a : Article} {v : String}
    (hp : arts.Pairwise (fun x y => x.title ≠ y.title))
    (hus : ∀ c ∈ arts, underscore c.title = c.title)
    (ha : a ∈ arts) (hv : dictGet q a.id = some v) :
    dictGet (load_title_map_join q arts) a.title = some v := by
  have hsym : Symmetric (fun x y : Article => x.title ≠ y.title) :=
    fun x y h e => h e.symm
  unfold load_title_map_join
  apply dictGet_filterMap_some ha (by simp [hv, hus a ha])
  intro b hb kv hkv hk1
  cases hq : dictGet q b.id with
  | none => rw [hq] at hkv; cases hkv
  | some w =>
    rw [hq] at hkv
    have hkv' : kv = (underscore b.title, w) := by injection hkv with h1; exact h1.symm
    subst hkv'
    have hbt : b.title = a.title := by rw [← hus b hb]; exact hk1
    by_cases hab : b = a
    · subst hab
      rw [hq] at hv
      injection hv
    · exact absurd hbt (hp.forall hsym hb ha hab)

theorem title_map_join_lookup_none {q : List (Nat × String)} {arts : List Article}
    {t : String} (hus : ∀ c ∈ arts, underscore c.title = c.title)
    (h : ∀ a ∈ arts, a.title ≠ t) :
    dictGet (load_title_map_join q arts) t = none := by
  unfold load_title_map_join
  apply dictGet_filterMap_none
  intro c hc kv hkv
  cases hq : dictGet q c.id with
  | none => rw [hq] at hkv; cases hkv
  | some w =>
    rw [hq] at hkv
    have hkv' : kv = (underscore c.title, w) := by injection hkv with h1; exact h1.symm
    subst hkv'
    show underscore c.title ≠ t
    rw [hus c hc]
    exact h c hc

/-- Counterexample to C2: one article ⟨1, "A"⟩ absent from the
PageId→ConceptId map, with the raw link (source page 1, "A" → "A"). The
in-memory strategy (bulk_exporter.py / graph_engine.py) resolves through
the synthetic fallback and emits the edge (local:en:1, local:en:1), while
the join-based strategy (prepare_neo4j_csv.py) loads its mappings through
the inner join `pages ⋈ id_mapping` — the unmapped page has no QID there —
and emits nothing: the two resolved edge sets differ. -/
theorem strategies_differ_example :
    in_memory_edges [] "en" [⟨1, "A"⟩] [⟨1, "A", "A"⟩]
      = [("local:en:1", "local:en:1")] ∧
    join_edges [] [⟨1, "A"⟩] [⟨1, "A", "A"⟩] = [] := by decide

/-- C2 amended: the two strategies emit identical resolved edge sequences
provided (i) every Article's pageId is mapped to a non-empty ConceptId by
the property dump (otherwise the in-memory synthetic fallback has no join
counterpart), (ii) titles are pairwise distinct and (iii) page ids are
pairwise distinct (the strategies key source resolution differently:
title vs page id), (iv, v) neither article titles nor link target titles
are changed by the join side's space→underscore normalization, and (vi)
each link's source page id and source title denote the same article, or
neither denotes any. -/
theorem resolution_strategies_agree (q : List (Nat × String)) (lang : String)
    (articles : List Article) (links : List PageLink)
    (hq : ∀ a ∈ articles, ∃ v, dictGet q a.id = some v ∧ v ≠ "")
    (htitles : articles.Pairwise (fun x y => x.title ≠ y.title))
    (hids : articles.Pairwise (fun x y => x.id ≠ y.id))
    (hus : ∀ a ∈ articles, underscore a.title = a.title)
    (hlt : ∀ l ∈ links, underscore l.tgt = l.tgt)
    (hsrc : ∀ l ∈ links,
      (∃ a ∈ articles, a.id = l.srcId ∧ a.title = l.srcTitle) ∨
      ((∀ a ∈ articles, a.id ≠ l.srcId) ∧ (∀ a ∈ articles, a.title ≠ l.srcTitle))) :
    in_memory_edges q lang articles links = join_edges q articles links := by
  unfold in_memory_edges join_edges
  apply List.filterMap_congr
  intro l hl
  rcases hsrc l hl with ⟨a, ha, haid, hat⟩ | ⟨hnoid, hnot⟩
  · obtain ⟨v, hv, hvne⟩ := hq a ha
    have hqid : get_qid q lang a.id = v := by simp [get_qid, hv]
    have hsrc1 : dictGet (build_title_map q lang articles) l.srcTitle = some v := by
      rw [← hat, title_map_lookup_some htitles ha, hqid]
    have hsrc2 : dictGet (load_id_map q articles) l.srcId = some v := by
      rw [← haid]; exact id_map_lookup_some hids ha hv
    by_cases hex : ∃ b ∈ articles, b.title = l.tgt
    · obtain ⟨b, hb, hbt⟩ := hex
      obtain ⟨w, hw, hwne⟩ := hq b hb
      have hqidb : get_qid q lang b.id = w := by simp [get_qid, hw]
      have htgt1 : dictGet (build_title_map q lang articles) l.tgt = some w := by
        rw [← hbt, title_map_lookup_some htitles hb, hqidb]
      have htgt2 : dictGet (load_title_map_join q articles) (underscore l.tgt)
          = some w := by
        rw [hlt l hl, ← hbt]
        exact title_map_join_lookup_some htitles hus hb hw
      simp [resolveLink, resolveJoin, hsrc1, hsrc2, htgt1, htgt2, truthy, hvne, hwne]
    · push_neg at hex
      have htgt1 : dictGet (build_title_map q lang articles) l.tgt = none :=
        title_map_lookup_none hex
      have htgt2 : dictGet (load_title_map_join q articles) (underscore l.tgt)
          = none := by
        rw [hlt l hl]; exact title_map_join_lookup_none hus hex
      simp [resolveLink, resolveJoin, hsrc1, hsrc2, htgt1, htgt2, truthy, hvne]
  · have hsrc1 : dictGet (build_title_map q lang articles) l.srcTitle = none :=
      title_map_lookup_none hnot
    have hsrc2 : dictGet (load_id_map q articles) l.srcId = none :=
      id_map_lookup_none hnoid
    simp [resolveLink, resolveJoin, hsrc1, hsrc2]

/-- Witness for amended C2 at the spec's two-article scenario
(Apple ↦ Q89, Banana ↦ Q503, link Apple → Banana): all hypotheses hold and
both strategies produce the same edges. -/
theorem resolution_strategies_agree_witness :
    List.Pairwise (fun x y : Article => x.title ≠ y.title)
      [⟨10, "Apple"⟩, ⟨11, "Banana"⟩] ∧
    in_memory_edges [(10, "Q89"), (11, "Q503")] "en"
        [⟨10, "Apple"⟩, ⟨11, "Banana"⟩] [⟨10, "Apple", "Banana"⟩]
      = join_edges [(10, "Q89"), (11, "Q503")]
        [⟨10, "Apple"⟩, ⟨11, "Banana"⟩] [⟨10, "Apple", "Banana"⟩] :=
  ⟨by decide,
   resolution_strategies_agree [(10, "Q89"), (11, "Q503")] "en"
     [⟨10, "Apple"⟩, ⟨11, "Banana"⟩] [⟨10, "Apple", "Banana"⟩]
     (by intro a ha
         fin_cases ha
         · exact ⟨"Q89", rfl, by decide⟩
         · exact ⟨"Q503", rfl, by decide⟩)
     (by decide) (by decide) (by decide) (by decide)
     (by intro l hl
         fin_cases hl
         exact Or.inl ⟨⟨10, "Apple"⟩, by decide, rfl, rfl⟩)⟩

end WikiGraph

